import Mathlib

/-!
Verification of the `rounded-ass` cue-to-ASS pipeline.

Shallow embedding of `src/lib/roundedAss.js`. Strings flowing through the
per-cue pipeline are modelled as lists of UTF-16 code units (`List ℕ`),
matching the semantics of the JavaScript regexes and of
`String.prototype.length`; JavaScript numbers are modelled as exact
rationals (`ℚ`), integers as `ℕ`/`ℤ` where the code only ever produces
integers.
-/

namespace RoundedAss

/-! ## Script detection (`detectScript`, roundedAss.js lines 600-619) -/

/-- Result alphabet of `detectScript`. -/
inductive Script
  | cjk
  | arabic
  | hebrew
  | latin
  deriving DecidableEq, Repr

/-- Membership of a UTF-16 code unit in the CJK character class
`[　-鿿豈-﫿]` (line 603). -/
def isCjkUnit (u : ℕ) : Bool :=
  decide ((0x3000 ≤ u ∧ u ≤ 0x9fff) ∨ (0xf900 ≤ u ∧ u ≤ 0xfaff))

/-- Membership in the Arabic character class `[؀-ۿ]` (line 608). -/
def isArabicUnit (u : ℕ) : Bool := decide (0x0600 ≤ u ∧ u ≤ 0x06FF)

/-- Membership in the Hebrew character class `[֐-׿]` (line 613). -/
def isHebrewUnit (u : ℕ) : Bool := decide (0x0590 ≤ u ∧ u ≤ 0x05FF)

/-- `detectScript` (lines 600-619): presence tests in priority order
CJK, Arabic, Hebrew, defaulting to Latin.  A regex `.test` is a
"some code unit is in the class" check, i.e. `List.any`. -/
def detectScript (text : List ℕ) : Script :=
  if text.any isCjkUnit then .cjk
  else if text.any isArabicUnit then .arabic
  else if text.any isHebrewUnit then .hebrew
  else .latin

/-! ## RTL marker (`isRtlScript`, lines 627-629, and line 305/308) -/

/-- `isRtlScript` (lines 627-629): `['arabic', 'hebrew'].includes(script)`. -/
def isRtlScript (s : Script) : Bool := [Script.arabic, Script.hebrew].contains s

/-- The code units of the literal `'\\u+F220'` (line 305): the seven
characters backslash, `u`, `+`, `F`, `2`, `2`, `0`. -/
def rtlMarkerUnits : List ℕ := [92, 117, 43, 70, 50, 50, 48]

/-- `currentRtlMarker` (line 305): the marker when the cue's own
detected script is RTL, otherwise the empty string. -/
def currentRtlMarker (text : List ℕ) : List ℕ :=
  if isRtlScript (detectScript text) then rtlMarkerUnits else []

/-- The final segment of the text event's Text field (line 308), i.e. the
template part after the closing override block:
marker (if any) followed by the cue text. -/
def textEventTail (text : List ℕ) : List ℕ := currentRtlMarker text ++ text

/-- **C5**: Script detection tests for the presence of characters in fixed
Unicode code-point ranges in the priority order CJK, then Arabic, then
Hebrew, defaulting to Latin, with the first matching range winning; any
text containing at least one CJK-range unit classifies as `cjk` regardless
of its other characters. -/
theorem detectScript_priority (text : List ℕ) :
    ((∃ u ∈ text, isCjkUnit u = true) → detectScript text = Script.cjk) ∧
    ((¬ ∃ u ∈ text, isCjkUnit u = true) → (∃ u ∈ text, isArabicUnit u = true) →
      detectScript text = Script.arabic) ∧
    ((¬ ∃ u ∈ text, isCjkUnit u = true) → (¬ ∃ u ∈ text, isArabicUnit u = true) →
      (∃ u ∈ text, isHebrewUnit u = true) → detectScript text = Script.hebrew) ∧
    ((¬ ∃ u ∈ text, isCjkUnit u = true) → (¬ ∃ u ∈ text, isArabicUnit u = true) →
      (¬ ∃ u ∈ text, isHebrewUnit u = true) → detectScript text = Script.latin) := by
  refine ⟨?_, ?_, ?_, ?_⟩
  · intro h
    have hc : text.any isCjkUnit = true := List.any_eq_true.mpr h
    simp [detectScript, hc]
  · intro hnc h
    have hc : ¬ text.any isCjkUnit = true := fun hx => hnc (List.any_eq_true.mp hx)
    have ha : text.any isArabicUnit = true := List.any_eq_true.mpr h
    simp [detectScript, hc, ha]
  · intro hnc hna h
    have hc : ¬ text.any isCjkUnit = true := fun hx => hnc (List.any_eq_true.mp hx)
    have ha : ¬ text.any isArabicUnit = true := fun hx => hna (List.any_eq_true.mp hx)
    have hh : text.any isHebrewUnit = true := List.any_eq_true.mpr h
    simp [detectScript, hc, ha, hh]
  · intro hnc hna hnh
    have hc : ¬ text.any isCjkUnit = true := fun hx => hnc (List.any_eq_true.mp hx)
    have ha : ¬ text.any isArabicUnit = true := fun hx => hna (List.any_eq_true.mp hx)
    have hh : ¬ text.any isHebrewUnit = true := fun hx => hnh (List.any_eq_true.mp hx)
    simp [detectScript, hc, ha, hh]

/-- Instantiation of `detectScript_priority`: the two-unit text
`U+4E2D` (CJK) followed by `A` (Latin) classifies as CJK. -/
theorem detectScript_priority_app : detectScript [0x4e2d, 0x41] = Script.cjk :=
  (detectScript_priority [0x4e2d, 0x41]).1 ⟨0x4e2d, by decide, by decide⟩

/-- **C6**: the generated text event carries the right-to-left override
marker exactly when the script detected on that cue's own text is Arabic or
Hebrew (the predominant document script does not enter the computation),
and `isRtlScript` is true exactly for `arabic` and `hebrew`. -/
theorem rtlMarker_iff (s : Script) (text : List ℕ) :
    (isRtlScript s = true ↔ s = Script.arabic ∨ s = Script.hebrew) ∧
    (textEventTail text = rtlMarkerUnits ++ text ↔
      detectScript text = Script.arabic ∨ detectScript text = Script.hebrew) ∧
    (detectScript text ≠ Script.arabic → detectScript text ≠ Script.hebrew →
      textEventTail text = text) := by
  have hmain : ∀ t : Script, isRtlScript t = true ↔ t = Script.arabic ∨ t = Script.hebrew := by
    intro t; cases t <;> simp [isRtlScript]
  refine ⟨hmain s, ?_, ?_⟩
  · unfold textEventTail currentRtlMarker
    by_cases h : isRtlScript (detectScript text)
    · simp [h, (hmain (detectScript text)).mp h]
    · have hno := (hmain (detectScript text)).not.mp (by simpa using h)
      push_neg at hno
      rw [if_neg h]
      simp only [List.nil_append]
      constructor
      · intro heq
        have := congrArg List.length heq
        simp [rtlMarkerUnits] at this
        omega
      · rintro (h1 | h1) <;> [exact absurd h1 hno.1; exact absurd h1 hno.2]
  · intro h1 h2
    unfold textEventTail currentRtlMarker
    have hfalse : ¬ isRtlScript (detectScript text) = true := by
      intro h
      rcases (hmain _).mp h with h' | h' <;> [exact absurd h' h1; exact absurd h' h2]
    simp [hfalse]

/-- Instantiation of `rtlMarker_iff`: an Arabic cue gets the marker
prepended, a Latin classification is not RTL. -/
theorem rtlMarker_iff_app :
    textEventTail [0x0627] = rtlMarkerUnits ++ [0x0627] ∧ ¬ isRtlScript Script.latin = true :=
  ⟨(rtlMarker_iff Script.latin [0x0627]).2.1.mpr (Or.inl (by decide)),
   fun h => by rcases (rtlMarker_iff Script.latin []).1.mp h with h' | h' <;> cases h'⟩

/-! ## Border radius resolution (`determineBorderRadius`, lines 699-718) -/

/-- `determineBorderRadius` (lines 699-718): a user-specified positive
radius is capped at `max 1 (min halfHeight halfWidth - 1)`, a non-positive
one becomes `0`; an unspecified radius is auto-derived from the box and
video dimensions and capped the same way. -/
def determineBorderRadius (specifiedRadius : Option ℚ)
    (halfWidth halfHeight videoWidth videoHeight : ℚ) : ℚ :=
  match specifiedRadius with
  | some r =>
    let maxAllowedRadius := max 1 (min halfHeight halfWidth - 1)
    if r > 0 then min r maxAllowedRadius else 0
  | none =>
    let smallerDimension := min halfWidth halfHeight
    let videoScale := min videoWidth videoHeight / 1080
    let baseRadius := min (10 * videoScale) (smallerDimension / 4)
    let maxAllowedRadius := max 1 (smallerDimension - 1)
    min baseRadius maxAllowedRadius

/-- The radius clamp `generateRoundedRectDrawing` applies to whatever
radius it receives (lines 443-445) before emitting the path. -/
def drawingEffectiveRadius (halfWidth halfHeight borderRadius : ℚ) : ℚ :=
  if borderRadius > 0 then min borderRadius (max 1 (min halfHeight halfWidth - 1)) else 0

/-- **C1**: for every box and every requested border radius (numeric or
unspecified), the effective radius satisfies
`0 ≤ radius ≤ max 1 (min halfWidth halfHeight - 1)`; this holds both for
the resolver and for the clamp repeated inside the drawing generator, and
a requested radius of `1000` with half-dimensions `(40, 20)` resolves
to `19`. -/
theorem borderRadius_clamped (specifiedRadius : Option ℚ)
    (halfWidth halfHeight videoWidth videoHeight : ℚ)
    (hw : 0 ≤ halfWidth) (hh : 0 ≤ halfHeight)
    (hvw : 0 ≤ videoWidth) (hvh : 0 ≤ videoHeight) :
    (0 ≤ determineBorderRadius specifiedRadius halfWidth halfHeight videoWidth videoHeight ∧
      determineBorderRadius specifiedRadius halfWidth halfHeight videoWidth videoHeight ≤
        max 1 (min halfWidth halfHeight - 1)) ∧
    (∀ br : ℚ, 0 ≤ drawingEffectiveRadius halfWidth halfHeight br ∧
      drawingEffectiveRadius halfWidth halfHeight br ≤ max 1 (min halfWidth halfHeight - 1)) ∧
    determineBorderRadius (some 1000) 40 20 videoWidth videoHeight = 19 := by
  have hcomm : min halfHeight halfWidth = min halfWidth halfHeight := min_comm _ _
  have hmax : (0 : ℚ) ≤ max 1 (min halfWidth halfHeight - 1) :=
    le_trans zero_le_one (le_max_left _ _)
  refine ⟨?_, ?_, ?_⟩
  · cases specifiedRadius with
    | some r =>
      simp only [determineBorderRadius, hcomm]
      by_cases hr : r > 0
      · rw [if_pos hr]
        exact ⟨le_min (le_of_lt hr) hmax, min_le_right _ _⟩
      · rw [if_neg hr]
        exact ⟨le_refl 0, hmax⟩
    | none =>
      simp only [determineBorderRadius]
      constructor
      · apply le_min
        · apply le_min
          · have : (0 : ℚ) ≤ min videoWidth videoHeight := le_min hvw hvh
            positivity
          · have : (0 : ℚ) ≤ min halfWidth halfHeight := le_min hw hh
            positivity
        · exact hmax
      · exact min_le_right _ _
  · intro br
    simp only [drawingEffectiveRadius, hcomm]
    by_cases hr : br > 0
    · rw [if_pos hr]
      exact ⟨le_min (le_of_lt hr) hmax, min_le_right _ _⟩
    · rw [if_neg hr]
      exact ⟨le_refl 0, hmax⟩
  · simp only [determineBorderRadius]
    norm_num

/-- Instantiation of `borderRadius_clamped` at a concrete box. -/
theorem borderRadius_clamped_app :
    (0 ≤ determineBorderRadius (some 5) 40 20 1920 1080 ∧
      determineBorderRadius (some 5) 40 20 1920 1080 ≤ max 1 (min (40 : ℚ) 20 - 1)) ∧
    determineBorderRadius (some 1000) 40 20 1920 1080 = 19 :=
  ⟨(borderRadius_clamped (some 5) 40 20 1920 1080
      (by norm_num) (by norm_num) (by norm_num) (by norm_num)).1,
   (borderRadius_clamped (some 1000) 40 20 1920 1080
      (by norm_num) (by norm_num) (by norm_num) (by norm_num)).2.2⟩

/-! ## Box width (`createRoundedAss` per-cue geometry, lines 254-276) -/

/-- The padding step (lines 254-262): `textWidth + 2` when the resolved
horizontal padding is exactly `0`, otherwise `textWidth + paddingH * 2`. -/
def boxWidthBeforeClamp (textWidth paddingH : ℚ) : ℚ :=
  if paddingH = 0 then textWidth + 2 else textWidth + paddingH * 2

/-- The full box-width computation (lines 254-276): padding step, then the
`videoWidth * 0.98` cap, then (only when `disableMinWidth` is off) the
minimum-width floor `videoWidth * minWidthFrac`, then the
`videoWidth * maxWidthFrac` cap.  `minWidthFrac`/`maxWidthFrac` model the
`minWidthRatio`/`maxWidthRatio` configuration fields. -/
def computeBoxWidth (textWidth paddingH videoWidth minWidthFrac maxWidthFrac : ℚ)
    (disableMinWidth : Bool) : ℚ :=
  let bw1 := min (boxWidthBeforeClamp textWidth paddingH) (videoWidth * (98 / 100))
  let bw2 := if disableMinWidth then bw1 else max bw1 (videoWidth * minWidthFrac)
  min bw2 (videoWidth * maxWidthFrac)

/-- **C3**: with the minimum-width floor disabled (the default), the box
width is `textWidth + 2*paddingX` (`textWidth + 2` when `paddingX = 0`),
clamped to at most `videoWidth * 0.98` and then to at most
`maxWidthFrac * videoWidth`; in particular `paddingX = 0` with measured
text width `50` on a 1920-wide canvas yields `52`. -/
theorem computeBoxWidth_spec (textWidth paddingH videoWidth minWidthFrac maxWidthFrac : ℚ) :
    computeBoxWidth textWidth paddingH videoWidth minWidthFrac maxWidthFrac true =
      min (min (if paddingH = 0 then textWidth + 2 else textWidth + paddingH * 2)
            (videoWidth * (98 / 100)))
          (videoWidth * maxWidthFrac) ∧
    computeBoxWidth 50 0 1920 0 1 true = 52 := by
  constructor
  · simp [computeBoxWidth, boxWidthBeforeClamp]
  · simp [computeBoxWidth, boxWidthBeforeClamp]
    norm_num

/-! ## Bottom margin (`determineBottomMargin`, lines 727-739) -/

/-- `determineBottomMargin` (lines 727-739): a caller-specified margin is
used verbatim; otherwise `floor(videoHeight * 0.05)` bounded below by `60`
and above by `floor(videoHeight * 0.1)`. -/
def determineBottomMargin (specifiedMargin : Option ℚ) (videoHeight : ℚ) : ℚ :=
  match specifiedMargin with
  | some m => m
  | none =>
    let baseMargin : ℚ := ((⌊videoHeight * (5 / 100)⌋ : ℤ) : ℚ)
    max 60 (min baseMargin ((⌊videoHeight * (1 / 10)⌋ : ℤ) : ℚ))

/-- Clamping of `x` to the interval `[lo, hi]`, as the spec words it
(lower bound winning when the interval is degenerate). -/
def clampSpec (lo hi x : ℚ) : ℚ := max lo (min x hi)

/-- **C7**: an unspecified bottom margin resolves to
`floor(videoHeight * 0.05)` clamped to `[60, floor(videoHeight * 0.1)]`;
a caller-specified margin is used verbatim.  (The resolver is invoked once
per document, before the per-cue loop — line 185.) -/
theorem determineBottomMargin_spec (videoHeight m : ℚ) :
    determineBottomMargin (some m) videoHeight = m ∧
    determineBottomMargin none videoHeight =
      clampSpec 60 ((⌊videoHeight * (1 / 10)⌋ : ℤ) : ℚ) ((⌊videoHeight * (5 / 100)⌋ : ℤ) : ℚ) := by
  exact ⟨rfl, rfl⟩

/-! ## Option resolution by `||`-coalescing (lines 49-62, 117-130) -/

/-- Resolution of `options.paddingX || 20` (line 56): JavaScript `||`
discards a zero (falsy) numeric value, so both an absent and a zero
`paddingX` resolve to the default `20`. -/
def resolvePaddingX (paddingX : Option ℚ) : ℚ :=
  match paddingX with
  | none => 20
  | some v => if v = 0 then 20 else v

/-- **C9**: the resolved horizontal padding is never `0` — in particular
`paddingX = 0` resolves to the default `20` — so the minimal-fit branch
`textWidth + 2` of the padding step is unreachable through the public
options interface: the padding step always takes the
`textWidth + paddingH * 2` branch. -/
theorem resolvePaddingX_nonzero (paddingX : Option ℚ) (textWidth : ℚ) :
    resolvePaddingX paddingX ≠ 0 ∧
    resolvePaddingX (some 0) = 20 ∧
    boxWidthBeforeClamp textWidth (resolvePaddingX paddingX) =
      textWidth + resolvePaddingX paddingX * 2 := by
  have hne : resolvePaddingX paddingX ≠ 0 := by
    cases paddingX with
    | none => norm_num [resolvePaddingX]
    | some v =>
      by_cases hv : v = 0
      · simp [resolvePaddingX, hv]
      · simp [resolvePaddingX, hv]
  exact ⟨hne, rfl, by rw [boxWidthBeforeClamp, if_neg hne]⟩

/-- Resolution of an optional JavaScript numeric by `||`: an absent or
zero value falls through to the default. -/
def jsOrOpt (o : Option ℕ) (d : ℕ) : ℕ :=
  match o with
  | none => d
  | some v => if v = 0 then d else v

/-- JavaScript `a || b` on numerics: `b` when `a` is `0`, else `a`. -/
def jsOrNat (a b : ℕ) : ℕ := if a = 0 then b else a

/-- The background-alpha resolution chain: `config.bgAlpha` is
`options.opacity || 0` (line 55) and the effective alpha is
`options.bgAlpha || config.bgAlpha || 80` (line 119). -/
def resolveBgAlpha (opacity bgAlpha : Option ℕ) : ℕ :=
  jsOrOpt bgAlpha (jsOrNat (jsOrOpt opacity 0) 80)

/-- **C10 counterexample**: the claim says every call whose options set
`opacity` to `0` gets effective alpha `80`; but with `opacity = 0` and
`bgAlpha = 100` the effective alpha is `100`. -/
theorem resolveBgAlpha_cex :
    resolveBgAlpha (some 0) (some 100) = 100 ∧ resolveBgAlpha (some 0) (some 100) ≠ 80 := by
  decide

/-- **C10 (amended)**: the effective background alpha is never `0` — a
zero alpha cannot be requested through the options — and when neither
`opacity` nor `bgAlpha` supplies a nonzero value (each absent or `0`),
the effective alpha is the default `80`. -/
theorem resolveBgAlpha_amended (opacity bgAlpha : Option ℕ) :
    resolveBgAlpha opacity bgAlpha ≠ 0 ∧
    ((opacity = none ∨ opacity = some 0) → (bgAlpha = none ∨ bgAlpha = some 0) →
      resolveBgAlpha opacity bgAlpha = 80) := by
  constructor
  · cases bgAlpha with
    | none =>
      cases opacity with
      | none => decide
      | some v =>
        simp only [resolveBgAlpha, jsOrOpt, jsOrNat]
        by_cases hv : v = 0 <;> simp [hv]
    | some w =>
      cases opacity with
      | none =>
        simp only [resolveBgAlpha, jsOrOpt, jsOrNat]
        by_cases hw : w = 0 <;> simp [hw]
      | some v =>
        simp only [resolveBgAlpha, jsOrOpt, jsOrNat]
        by_cases hw : w = 0 <;> by_cases hv : v = 0 <;> simp [hw, hv]
  · rintro (ho | ho) (hb | hb) <;> subst ho <;> subst hb <;> decide

/-- Instantiation of `resolveBgAlpha_amended` at `opacity = 0`,
`bgAlpha` absent. -/
theorem resolveBgAlpha_amended_app :
    resolveBgAlpha (some 0) none ≠ 0 ∧ resolveBgAlpha (some 0) none = 80 :=
  ⟨(resolveBgAlpha_amended (some 0) none).1,
   (resolveBgAlpha_amended (some 0) none).2 (Or.inr rfl) (Or.inl rfl)⟩

/-! ## Timing normalization (`parseSubtitles`, lines 395-406) -/

/-- A parsed cue (lines 383-393): index, start/end in seconds, text as
UTF-16 code units.  The JavaScript field `end` is named `endTime` here
because `end` is a Lean keyword. -/
structure Cue where
  index : ℕ
  start : ℚ
  endTime : ℚ
  text : List ℕ
  deriving DecidableEq, Repr

/-- The anti-flicker pass (lines 395-404): for each adjacent pair in
original order, when `next.start - current.end < 0.1` set
`current.end = next.start`.  The loop only ever mutates the end time of
the cue at the current position, so each comparison reads the original
end of its left cue; the recursion reflects that. -/
def fixTimings : List Cue → List Cue
  | [] => []
  | [c] => [c]
  | current :: next :: rest =>
    (if next.start - current.endTime < 1 / 10
      then { current with endTime := next.start } else current)
      :: fixTimings (next :: rest)

theorem fixTimings_getElem? :
    ∀ (l : List Cue) (i : ℕ) (a b : Cue), l[i]? = some a → l[i + 1]? = some b →
      (fixTimings l)[i]? =
        some (if b.start - a.endTime < 1 / 10 then { a with endTime := b.start } else a) := by
  intro l
  induction l using fixTimings.induct with
  | case1 => intro i a b ha _; simp at ha
  | case2 c => intro i a b _ hb; rcases i <;> simp at hb
  | case3 current next rest ih =>
    intro i a b ha hb
    cases i with
    | zero =>
      simp only [List.getElem?_cons_zero, Option.some.injEq] at ha
      simp only [List.getElem?_cons_succ, List.getElem?_cons_zero, Option.some.injEq] at hb
      subst ha; subst hb
      simp [fixTimings]
    | succ n =>
      rw [List.getElem?_cons_succ] at ha hb
      simpa [fixTimings] using ih n a b ha hb

theorem fixTimings_start :
    ∀ (l : List Cue) (i : ℕ),
      ((fixTimings l)[i]?).map Cue.start = (l[i]?).map Cue.start := by
  intro l
  induction l using fixTimings.induct with
  | case1 => intro i; rfl
  | case2 c => intro i; rfl
  | case3 current next rest ih =>
    intro i
    cases i with
    | zero =>
      simp only [fixTimings, List.getElem?_cons_zero, Option.map_some']
      split <;> rfl
    | succ n =>
      simpa [fixTimings] using ih n

theorem fixTimings_head_start (c : Cue) (l : List Cue) :
    ∃ y, (fixTimings (c :: l)).head? = some y ∧ y.start = c.start := by
  cases l with
  | nil => exact ⟨c, rfl, rfl⟩
  | cons d ds =>
    simp only [fixTimings, List.head?_cons]
    refine ⟨_, rfl, ?_⟩
    split <;> rfl

theorem fixTimings_chain :
    ∀ l : List Cue,
      List.Chain' (fun a b => 1 / 10 ≤ b.start - a.endTime ∨ a.endTime = b.start)
        (fixTimings l) := by
  intro l
  induction l using fixTimings.induct with
  | case1 => simp [fixTimings]
  | case2 c => simp [fixTimings]
  | case3 current next rest ih =>
    rw [fixTimings, List.chain'_cons']
    refine ⟨?_, ih⟩
    intro y hy
    obtain ⟨y', hy', hstart⟩ := fixTimings_head_start next rest
    rw [hy'] at hy
    cases hy
    by_cases hgap : next.start - current.endTime < 1 / 10
    · rw [if_pos hgap]
      exact Or.inr hstart.symm
    · rw [if_neg hgap]
      exact Or.inl (by rw [hstart]; linarith [not_lt.mp hgap])

/-- **C2**: timing normalization is a single forward pass in original
order: the normalized cue at position `i` is the original cue with its end
replaced by `next.start` exactly when the original gap
`next.start - current.end` was below `0.1`; start times are untouched; and
afterwards every adjacent pair satisfies `next.start - current.end ≥ 0.1`
or `current.end = next.start`. -/
theorem fixTimings_spec (l : List Cue) :
    (∀ (i : ℕ) (a b : Cue), l[i]? = some a → l[i + 1]? = some b →
      (fixTimings l)[i]? =
        some (if b.start - a.endTime < 1 / 10 then { a with endTime := b.start } else a)) ∧
    (∀ i : ℕ, ((fixTimings l)[i]?).map Cue.start = (l[i]?).map Cue.start) ∧
    List.Chain' (fun a b => 1 / 10 ≤ b.start - a.endTime ∨ a.endTime = b.start)
      (fixTimings l) :=
  ⟨fixTimings_getElem? l, fixTimings_start l, fixTimings_chain l⟩

/-- Instantiation of `fixTimings_spec` on the spec's end-to-end example:
cues `0.0 → 1.0` and `1.05 → 2.0` have a `0.05` gap, so the first cue's
end becomes `1.05`. -/
theorem fixTimings_spec_app :
    (fixTimings [⟨1, 0, 1, []⟩, ⟨2, 21 / 20, 2, []⟩])[0]? = some ⟨1, 0, 21 / 20, []⟩ := by
  have h := (fixTimings_spec [⟨1, 0, 1, []⟩, ⟨2, 21 / 20, 2, []⟩]).1 0
    ⟨1, 0, 1, []⟩ ⟨2, 21 / 20, 2, []⟩ rfl rfl
  rw [if_pos (by norm_num)] at h
  exact h

/-! ## Heuristic dimension estimator (`calculateTextDimensions`,
lines 640-659) -/

/-- Scanner for the lazy tag-span regex (line 643): from the unit after an
opening brace, find the matching closing brace.  `.` does not cross a line
terminator (LF, CR, LS, PS), so the scan aborts on those; laziness means
the first closing brace wins.  Returns the suffix after the closing
brace. -/
def findClose : List ℕ → Option (List ℕ)
  | [] => none
  | u :: rest =>
    if u = 125 then some rest
    else if u = 10 ∨ u = 13 ∨ u = 0x2028 ∨ u = 0x2029 then none
    else findClose rest

theorem findClose_length :
    ∀ (l r : List ℕ), findClose l = some r → r.length < l.length := by
  intro l
  induction l with
  | nil => intro r h; simp [findClose] at h
  | cons u rest ih =>
    intro r h
    simp only [findClose] at h
    split at h
    · cases h
      simp
    · split at h
      · cases h
      · exact Nat.lt_trans (ih r h) (Nat.lt_succ_self _)

/-- Global replacement of the tag-span regex by the empty string
(line 643, first `replace`): left-to-right, each match running from an
opening brace to the first closing brace after it with no line terminator
in between; an opening brace with no such close is literal text (and inner
opening braces are then retried, as the regex engine does when it advances
its start position). -/
def stripTags : List ℕ → List ℕ
  | [] => []
  | u :: rest =>
    if u = 123 then
      match h : findClose rest with
      | some rest' => stripTags rest'
      | none => u :: stripTags rest
    else u :: stripTags rest
termination_by l => l.length
decreasing_by
  · exact Nat.lt_trans (findClose_length rest rest' h) (Nat.lt_succ_self _)
  · exact Nat.lt_succ_self _
  · exact Nat.lt_succ_self _

/-- Global replacement of the forced-line-break escape `\N` (backslash
then `N`, units 92 78) by a single space (line 643, second `replace`),
left to right. -/
def replaceN : List ℕ → List ℕ
  | 92 :: 78 :: rest => 32 :: replaceN rest
  | u :: rest => u :: replaceN rest
  | [] => []

/-- Count of forced-line-break escapes, as `text.match` with the global
`\N` regex counts them (line 651): non-overlapping, left to right. -/
def countN : List ℕ → ℕ
  | 92 :: 78 :: rest => countN rest + 1
  | _ :: rest => countN rest
  | [] => 0

/-- `calculateTextDimensions` (lines 640-659): clean the text (drop tag
spans, turn each line-break escape into one space), estimate the width
from the character count at `0.6 em` per character capped at 90% of the
video width, and the height from `1.2 em` per line with the line count
read off the original text. -/
def calculateTextDimensions (text : List ℕ) (fontSize videoWidth : ℚ) : ℚ × ℚ :=
  let cleanText := replaceN (stripTags text)
  let charWidth := fontSize * (6 / 10)
  let estimatedWidth := min ((cleanText.length : ℚ) * charWidth) (videoWidth * (9 / 10))
  let lineCount := countN text + 1
  let lineHeight := fontSize * (12 / 10)
  (estimatedWidth, lineHeight * (lineCount : ℚ))

/-- **C8**: the heuristic estimator returns
`width = min (charCount * fontSize * 0.6) (videoWidth * 0.9)` where
`charCount` is the length of the text after removing tag spans and
replacing each forced-line-break escape with a space, and
`height = fontSize * 1.2 * lineCount` with
`lineCount = count of forced-line-break escapes + 1`. -/
theorem calculateTextDimensions_spec (text : List ℕ) (fontSize videoWidth : ℚ) :
    calculateTextDimensions text fontSize videoWidth =
      (min (((replaceN (stripTags text)).length : ℚ) * fontSize * (6 / 10))
          (videoWidth * (9 / 10)),
        fontSize * (12 / 10) * ((countN text : ℚ) + 1)) := by
  simp only [calculateTextDimensions, Prod.mk.injEq]
  constructor
  · ring_nf
  · push_cast
    ring

/-! ## Timestamp formatting (`formatAssTime`, lines 424-430)

`formatAssTime` is modelled for the non-negative times produced by the
parser (JavaScript `%` agrees with floored remainder there, and the
`Int.toNat` bridges below are the identity).  `toFixed(2)` rounds
half-up to centiseconds — ECMA-262 picks the larger candidate at a tie —
so it is `⌊x * 100 + 1/2⌋` on the integer side. -/

/-- `String.prototype.padStart(w, '0')`. -/
def padStart (w : ℕ) (s : String) : String :=
  if w ≤ s.length then s else String.mk (List.replicate (w - s.length) '0') ++ s

/-- JavaScript `a % d` for non-negative `a` and positive `d`. -/
def jsMod (a d : ℚ) : ℚ := a - d * ⌊a / d⌋

/-- `Math.floor(seconds / 3600)` (line 425). -/
def hoursOf (s : ℚ) : ℕ := (⌊s / 3600⌋).toNat

/-- `Math.floor((seconds % 3600) / 60)` (line 426). -/
def minutesOf (s : ℚ) : ℕ := (⌊jsMod s 3600 / 60⌋).toNat

/-- The integer value of `(seconds % 60).toFixed(2)` in centiseconds
(lines 427, 429). -/
def centisOf (s : ℚ) : ℕ := (⌊jsMod s 60 * 100 + 1 / 2⌋).toNat

/-- `formatAssTime` (lines 424-430): unpadded hours, minutes padded to two
digits, and `secs.toFixed(2).padStart(5, '0')` where the `toFixed` string
is integer part, dot, two centisecond digits. -/
def formatAssTime (s : ℚ) : String :=
  toString (hoursOf s) ++ ":" ++ padStart 2 (toString (minutesOf s)) ++ ":" ++
    padStart 5 (toString (centisOf s / 100) ++ "." ++ padStart 2 (toString (centisOf s % 100)))

theorem jsMod_lt (a d : ℚ) (hd : 0 < d) : jsMod a d < d := by
  have hfract : jsMod a d = d * Int.fract (a / d) := by
    rw [jsMod, Int.fract, mul_sub, mul_div_cancel₀ _ (ne_of_gt hd)]
  rw [hfract]
  calc d * Int.fract (a / d) < d * 1 :=
        (mul_lt_mul_left hd).mpr (Int.fract_lt_one _)
    _ = d := mul_one d

theorem minutesOf_lt (s : ℚ) : minutesOf s < 60 := by
  have hub : jsMod s 3600 / 60 < 60 := by
    have := jsMod_lt s 3600 (by norm_num)
    linarith
  have hfl : (⌊jsMod s 3600 / 60⌋ : ℤ) < 60 := by
    have := Int.floor_lt.mpr (by exact_mod_cast hub)
    exact_mod_cast this
  unfold minutesOf
  omega

theorem centisOf_le (s : ℚ) : centisOf s ≤ 6000 := by
  have hub : jsMod s 60 * 100 + 1 / 2 < 6001 := by
    have := jsMod_lt s 60 (by norm_num)
    linarith
  have hfl : (⌊jsMod s 60 * 100 + 1 / 2⌋ : ℤ) < 6001 := by
    have := Int.floor_lt.mpr (by exact_mod_cast hub)
    exact_mod_cast this
  unfold centisOf
  omega

theorem natToString_len1 : ∀ n : ℕ, n < 10 → (toString n).length = 1 := by decide

theorem natToString_len2 : ∀ n : ℕ, n < 100 → 10 ≤ n → (toString n).length = 2 := by decide

theorem padStart2_len : ∀ n : ℕ, n < 100 → (padStart 2 (toString n)).length = 2 := by decide

/-- The padded `toFixed(2)` seconds field splits as a two-digit padded
integer part, a dot, and the two centisecond digits. -/
theorem secsField_eq (c : ℕ) (hc : c ≤ 6000) :
    padStart 5 (toString (c / 100) ++ "." ++ padStart 2 (toString (c % 100))) =
      padStart 2 (toString (c / 100)) ++ "." ++ padStart 2 (toString (c % 100)) := by
  have hip : c / 100 < 100 := by omega
  have hfp : c % 100 < 100 := by omega
  have hfp2 : (padStart 2 (toString (c % 100))).length = 2 := padStart2_len _ hfp
  have hdot : ("." : String).length = 1 := rfl
  by_cases h : c / 100 < 10
  · have hip1 : (toString (c / 100)).length = 1 := natToString_len1 _ h
    have hlen : (toString (c / 100) ++ "." ++ padStart 2 (toString (c % 100))).length = 4 := by
      simp [String.length_append, hip1, hfp2, hdot]
    rw [padStart, hlen]
    norm_num
    conv_rhs => rw [padStart, hip1]
    norm_num
    rw [← String.append_assoc, ← String.append_assoc]
  · have hip2 : (toString (c / 100)).length = 2 := natToString_len2 _ hip (by omega)
    have hlen : (toString (c / 100) ++ "." ++ padStart 2 (toString (c % 100))).length = 5 := by
      simp [String.length_append, hip2, hfp2, hdot]
    rw [padStart, hlen]
    norm_num
    conv_rhs => rw [padStart, hip2]
    norm_num

/-- **C4 counterexample**: the claim requires the seconds field to stay
below 60, but at `59.999 s` the `toFixed(2)` rounding carries into the
next minute and the code emits `0:00:60.00` — a seconds field of `60`. -/
theorem formatAssTime_rollover :
    formatAssTime (59999 / 1000) = "0:00:60.00" ∧
      ¬ centisOf (59999 / 1000) / 100 < 60 := by
  have h1 : hoursOf (59999 / 1000) = 0 := by
    have h : (⌊(59999 / 1000 : ℚ) / 3600⌋ : ℤ) = 0 := by norm_num
    rw [hoursOf, h]; rfl
  have h2 : minutesOf (59999 / 1000) = 0 := by
    have h : (⌊jsMod (59999 / 1000 : ℚ) 3600 / 60⌋ : ℤ) = 0 := by norm_num [jsMod]
    rw [minutesOf, h]; rfl
  have h3 : centisOf (59999 / 1000) = 6000 := by
    have h : (⌊jsMod (59999 / 1000 : ℚ) 60 * 100 + 1 / 2⌋ : ℤ) = 6000 := by norm_num [jsMod]
    rw [centisOf, h]; rfl
  constructor
  · rw [formatAssTime, h1, h2, h3]
    decide
  · rw [h3]
    decide

/-- **C4 (amended)**: for every non-negative time, the emitted timestamp
is unpadded hours, colon, two-digit zero-padded minutes below 60, colon,
then a two-digit zero-padded seconds integer part, a dot, and exactly two
centisecond digits; the seconds field value (in centiseconds) is at most
`6000`, i.e. at most `60.00` — it can reach exactly `60.00` through
`toFixed(2)` rounding, which is the one deviation from the claim. -/
theorem formatAssTime_shape (s : ℚ) (hs : 0 ≤ s) :
    formatAssTime s =
      toString (hoursOf s) ++ ":" ++ padStart 2 (toString (minutesOf s)) ++ ":" ++
        (padStart 2 (toString (centisOf s / 100)) ++ "." ++
          padStart 2 (toString (centisOf s % 100))) ∧
    minutesOf s < 60 ∧ centisOf s ≤ 6000 ∧
    (padStart 2 (toString (minutesOf s))).length = 2 ∧
    (padStart 2 (toString (centisOf s % 100))).length = 2 := by
  have hm := minutesOf_lt s
  have hc := centisOf_le s
  refine ⟨?_, hm, hc, padStart2_len _ (by omega), padStart2_len _ (by omega)⟩
  rw [formatAssTime, secsField_eq _ hc]

/-- Instantiation of `formatAssTime_shape` at `3725.5 s` (= 1:02:05.50). -/
theorem formatAssTime_shape_app :
    minutesOf (7451 / 2) < 60 ∧ centisOf (7451 / 2) ≤ 6000 :=
  ⟨(formatAssTime_shape (7451 / 2) (by norm_num)).2.1,
   (formatAssTime_shape (7451 / 2) (by norm_num)).2.2.1⟩

end RoundedAss
